import Mathlib

/-!
Verification of the `notified-frontend` resilience and performance
toolkit.

Shallow embedding of the client toolkit found in `src/utils` of the
repository (error handling / retry, timeout race, bounded memo cache,
virtual-list windowing), together with proofs of its specified
properties.

Conventions:
* JavaScript numbers are modelled as exact rationals (`ℚ`); integer
  results of `Math.floor` / `Math.Int.ceil` are `ℤ`.
* Promise-based code is modelled by explicit outcome values: a fallible
  operation is an `Except` value, an asynchronous computation is an
  outcome paired with the (abstract) instant at which it settles.
* The JS `Map` underlying `MemoCache` is modelled as an association list
  in insertion order, which is exactly the observable semantics of a JS
  `Map` (insertion-ordered, `set` on a present key updates in place,
  `keys().next()` returns the oldest key).
-/

set_option autoImplicit false

namespace Notified

/-! ## Failure shapes

The repository's error-classification code distinguishes failures by
shape via the type guards `isNetworkError` / `isApiError` (imported from
`../types`; only the `ApiError` interface `{ message, status : number }`
is in the sources).  Modelled from the spec: a failure is either a
network-level failure (no response received), an API error carrying a
numeric status, a plain JS `Error` with a message (as synthesized by
`timeout`), or some unknown/ambiguous shape. -/
inductive FailureShape where
  /-- Network-level failure: no response was received. -/
  | network (message : String)
  /-- The `ApiError` shape: carries a numeric HTTP status. -/
  | api (message : String) (status : ℤ)
  /-- A plain JS `Error` object (e.g. the one thrown by `timeout`). -/
  | jsError (message : String)
  /-- Any other / ambiguous failure shape. -/
  | unknown
  deriving DecidableEq, Repr

/-- Modelled from the spec: the `isNetworkError` type guard (absent from
`src`; the spec describes it as "the failure indicates no response was
received (network-level failure)"). -/
def isNetworkError : FailureShape → Bool
  | .network _ => true
  | _ => false

/-- Modelled from the spec: the `isApiError` type guard (absent from
`src`; the `ApiError` interface in `src/types` is
`{ message : string, status : number }`, so the guard holds exactly for
failures carrying a numeric status). -/
def isApiError : FailureShape → Bool
  | .api _ _ => true
  | _ => false

/-- The numeric `status` field of an `ApiError`-shaped failure
(meaningful only when `isApiError` holds, matching `error.status` in the
source). -/
def FailureShape.status : FailureShape → ℤ
  | .api _ s => s
  | _ => 0

/-- Function `isRetryableError` from `src/unnamed/part_003` lines 403–425,
translated clause by clause: network errors, 5xx, 429 and 408 are
retryable, everything else is not. -/
def isRetryableError (error : FailureShape) : Bool :=
  if isNetworkError error then
    true
  else if isApiError error && decide (500 ≤ error.status) && decide (error.status < 600) then
    true
  else if isApiError error && decide (error.status = 429) then
    true
  else if isApiError error && decide (error.status = 408) then
    true
  else
    false

/-! ## Retry configuration and backoff -/

/-- The `RetryConfig` interface from `src/unnamed/part_003` lines 373–378.
Delays and the multiplier are JS numbers, modelled as rationals;
`maxRetries` is a non-negative integer count. -/
structure RetryConfig where
  maxRetries : ℕ
  initialDelay : ℚ
  maxDelay : ℚ
  backoffMultiplier : ℚ
  deriving Repr

/-- Constant `DEFAULT_RETRY_CONFIG` from `src/unnamed/part_003` lines 380–385. -/
def DEFAULT_RETRY_CONFIG : RetryConfig :=
  { maxRetries := 3, initialDelay := 1000, maxDelay := 10000, backoffMultiplier := 2 }

/-- Function `calculateBackoff` from `src/unnamed/part_003` lines 393–396:
`Math.min(initialDelay * multiplier ^ attempt, maxDelay)`. -/
def calculateBackoff (attempt : ℕ) (config : RetryConfig) : ℚ :=
  min (config.initialDelay * config.backoffMultiplier ^ attempt) config.maxDelay

/-! ## The retry loop

`fetchWithRetry` (`src/unnamed/part_003` lines 436–470) runs
`for (attempt = 0; attempt <= maxRetries; attempt++)`, invoking the
operation once per iteration.  The operation is modelled as a function
from the invocation index to that invocation's outcome; the result is
paired with the number of invocations actually performed.  The loop is
embedded with `remaining = maxRetries - attempt` as the structural
fuel, so the `attempt === maxRetries` test of the source becomes
`remaining = 0`. -/

variable {α : Type*}

/-- One pass of the `fetchWithRetry` loop body, starting at invocation
index `attempt` with `remaining` further attempts allowed after this
one.  Returns the final outcome together with the number of invocations
of the operation performed from this point on. -/
def fetchWithRetryGo (fn : ℕ → Except FailureShape α) :
    (attempt remaining : ℕ) → Except FailureShape α × ℕ
  | attempt, remaining =>
    match fn attempt with
    | .ok value => (.ok value, 1)
    | .error e =>
      if isRetryableError e then
        match remaining with
        | 0 => (.error e, 1)
        | r + 1 =>
          let rest := fetchWithRetryGo fn (attempt + 1) r
          (rest.1, rest.2 + 1)
      else
        (.error e, 1)

/-- Function `fetchWithRetry` from `src/unnamed/part_003` lines 436–470 (the
backoff delay between attempts does not influence which invocations are
made nor the final outcome, so it does not appear in the model).  The
second component counts the invocations of `fn`. -/
def fetchWithRetry (fn : ℕ → Except FailureShape α) (config : RetryConfig) :
    Except FailureShape α × ℕ :=
  fetchWithRetryGo fn 0 config.maxRetries

/-! ## Timeout racer

A settled promise is modelled as the instant (in ms, abstract) at which
it settles together with the value it settles to (`ok` = fulfilled,
`error` = rejected). -/

/-- A promise that eventually settles: the settling instant and the
outcome. -/
structure Promise (α : Type*) where
  settleTime : ℚ
  result : Except FailureShape α
  deriving Repr

/-- Function `timeout` from `src/unnamed/part_003` lines 576–582: a promise that
rejects with `new Error(message)` once `ms` elapses. -/
def timeout (α : Type*) (ms : ℚ) (message : String := "Request timeout") : Promise α :=
  { settleTime := ms, result := .error (.jsError message) }

/-- The `Promise.race` of two promises: whichever settles first determines
the outcome (on a tie the first element of the raced array wins). -/
def promiseRace (p q : Promise α) : Promise α :=
  if p.settleTime ≤ q.settleTime then p else q

/-- Function `withTimeout` from `src/unnamed/part_003` lines 593–599:
`Promise.race([promise, timeout(ms, message)])`. -/
def withTimeout (promise : Promise α) (ms : ℚ) (message : String := "Request timeout") :
    Promise α :=
  promiseRace promise (timeout α ms message)

/-- Timer bookkeeping for the race in `withTimeout`: the number of
scheduled timer callbacks of the race still pending at the instant the
race settles.  `timeout` (lines 576–582) calls `setTimeout(..., ms)`
without retaining the returned handle, and `withTimeout` (lines
593–599) contains no `clearTimeout` on any path; hence when the
operation settles strictly before `ms` the scheduled callback is still
pending, and only when the timer itself fires first (or at the same
instant) has it stopped pending. -/
def withTimeoutPendingTimers (opSettleTime ms : ℚ) : ℕ :=
  if opSettleTime < ms then 1 else 0

/-! ## Bounded memo cache

`MemoCache` (`src/unnamed/part_003` lines 324–354) wraps a JS `Map`.
A JS `Map` is observably an insertion-ordered association list:
`set` of a present key updates the value in place (order preserved),
`set` of a fresh key appends at the back, `keys().next().value` is the
key of the oldest entry, `delete` removes the (unique) entry with the
key.  We model the map as `List (K × V)` in insertion order.  (The
`firstKey !== undefined` guard of the source corresponds to the
`Option` match on the oldest key: it is `none` exactly when the map is
empty; the model assumes `undefined` itself is not used as a key.) -/

variable {K V : Type*} [DecidableEq K]

/-- Operation `Map.prototype.get`. -/
def mapFind (entries : List (K × V)) (key : K) : Option V :=
  match entries with
  | [] => none
  | (k, v) :: rest => if k = key then some v else mapFind rest key

/-- Operation `Map.prototype.set`: update in place when the key is present,
append at the back when it is fresh. -/
def mapSet (entries : List (K × V)) (key : K) (value : V) : List (K × V) :=
  match entries with
  | [] => [(key, value)]
  | (k, v) :: rest =>
    if k = key then (k, value) :: rest else (k, v) :: mapSet rest key value

/-- Operation `Map.prototype.delete`: remove the first (in a well-formed map the
unique) entry with the key. -/
def mapDelete (entries : List (K × V)) (key : K) : List (K × V) :=
  match entries with
  | [] => []
  | (k, v) :: rest => if k = key then rest else (k, v) :: mapDelete rest key

/-- Expression `this.cache.keys().next().value`: the oldest-inserted key, `none`
when the map is empty (JS: `undefined`). -/
def mapFirstKey (entries : List (K × V)) : Option K :=
  entries.head?.map Prod.fst

/-- The `MemoCache<K, V>` class state: the underlying insertion-ordered
map and the configured capacity. -/
structure MemoCache (K V : Type*) where
  cache : List (K × V)
  maxSize : ℕ
  deriving DecidableEq, Repr

namespace MemoCache

/-- Constructor `new MemoCache(maxSize)` (lines 328–330; default 100). -/
def mk' (K V : Type*) (maxSize : ℕ := 100) : MemoCache K V :=
  { cache := [], maxSize := maxSize }

/-- Method `MemoCache.get` (lines 332–334): pure lookup, no state change. -/
def get (c : MemoCache K V) (key : K) : Option V :=
  mapFind c.cache key

/-- Method `MemoCache.set` (lines 336–345): if `size >= maxSize`, delete the
oldest key (when one exists), then `Map.set` the new pair. -/
def set (c : MemoCache K V) (key : K) (value : V) : MemoCache K V :=
  let afterEvict :=
    if c.cache.length ≥ c.maxSize then
      match mapFirstKey c.cache with
      | some firstKey => mapDelete c.cache firstKey
      | none => c.cache
    else c.cache
  { c with cache := mapSet afterEvict key value }

/-- Method `MemoCache.has` (lines 347–349). -/
def has (c : MemoCache K V) (key : K) : Bool :=
  (mapFind c.cache key).isSome

/-- Method `MemoCache.clear` (lines 351–353). -/
def clear (c : MemoCache K V) : MemoCache K V :=
  { c with cache := [] }

/-- Method `size()` of the underlying map. -/
def size (c : MemoCache K V) : ℕ :=
  c.cache.length

end MemoCache

/-- One cache operation, for stating invariants over arbitrary call
sequences.  `get` and `has` do not modify the state. -/
inductive CacheOp (K V : Type*) where
  | get (key : K)
  | set (key : K) (value : V)
  | has (key : K)
  | clear
  deriving Repr

/-- The state transition of a single cache operation (`get`/`has` are
read-only). -/
def applyCacheOp (c : MemoCache K V) : CacheOp K V → MemoCache K V
  | .get _ => c
  | .set k v => c.set k v
  | .has _ => c
  | .clear => c.clear

/-- The state after a sequence of cache operations. -/
def applyCacheOps (c : MemoCache K V) (ops : List (CacheOp K V)) : MemoCache K V :=
  ops.foldl applyCacheOp c

/-- Inserting a list of key/value pairs in order (repeated `set`). -/
def insertAll (c : MemoCache K V) (kvs : List (K × V)) : MemoCache K V :=
  kvs.foldl (fun acc kv => acc.set kv.1 kv.2) c

/-! ## Virtual-list windowing -/

/-- The record returned by `calculateVisibleRange`. -/
structure VisibleRange where
  startIndex : ℤ
  endIndex : ℤ
  offsetY : ℚ
  deriving DecidableEq, Repr

/-- Function `calculateVisibleRange` from `src/unnamed/part_003` lines 271–286:
`startIndex = Math.max(0, Math.floor(scrollTop / itemHeight) - overscan)`,
`endIndex = Math.min(totalItems - 1, Math.ceil((scrollTop + containerHeight) / itemHeight) + overscan)`,
`offsetY = startIndex * itemHeight`. -/
def calculateVisibleRange (totalItems : ℤ) (itemHeight containerHeight scrollTop : ℚ)
    (overscan : ℤ := 3) : VisibleRange :=
  let startIndex := max 0 (⌊scrollTop / itemHeight⌋ - overscan)
  let endIndex := min (totalItems - 1) (⌈(scrollTop + containerHeight) / itemHeight⌉ + overscan)
  { startIndex := startIndex, endIndex := endIndex, offsetY := (startIndex : ℚ) * itemHeight }

/-! ## Theorems -/

/-- The branch structure of `isRetryableError` on an `ApiError`-shaped
failure collapses to a single decidable status predicate. -/
lemma isRetryableError_api_eq (m : String) (s : ℤ) :
    isRetryableError (.api m s) = decide ((500 ≤ s ∧ s < 600) ∨ s = 429 ∨ s = 408) := by
  by_cases h1 : (500:ℤ) ≤ s <;> by_cases h2 : s < 600 <;> by_cases h3 : s = 429 <;>
    by_cases h4 : s = 408 <;>
      simp [isRetryableError, isNetworkError, isApiError, FailureShape.status, h1, h2, h3, h4]

/-- C2: `isRetryableError` reports a failure retryable iff it is a
network-level failure (no response received), or carries a numeric
status in `[500, 599]`, or status `429`, or status `408`; every other
shape (plain `Error`s, unknown shapes, `404` and other 4xx) is not
retryable.  Totality and purity hold by construction: the classifier is
a total function of the failure value alone. -/
theorem isRetryableError_iff (e : FailureShape) :
    isRetryableError e = true ↔
      ((∃ m, e = .network m) ∨
        (∃ m s, e = .api m s ∧ ((500 ≤ s ∧ s ≤ 599) ∨ s = 429 ∨ s = 408))) := by
  cases e with
  | network m => simp [isRetryableError, isNetworkError, isApiError]
  | api m s =>
    rw [isRetryableError_api_eq]
    simp only [decide_eq_true_eq, FailureShape.api.injEq]
    constructor
    · rintro ((h1 | h2 | h3))
      · exact .inr ⟨m, s, ⟨rfl, rfl⟩, .inl ⟨h1.1, by omega⟩⟩
      · exact .inr ⟨m, s, ⟨rfl, rfl⟩, .inr (.inl h2)⟩
      · exact .inr ⟨m, s, ⟨rfl, rfl⟩, .inr (.inr h3)⟩
    · rintro (⟨m', hm⟩ | ⟨m', s', ⟨hm, hs⟩, hcond⟩)
      · exact absurd hm (by simp)
      · subst hs
        rcases hcond with ⟨ha, hb⟩ | h | h
        · exact .inl ⟨ha, by omega⟩
        · exact .inr (.inl h)
        · exact .inr (.inr h)
  | jsError m => simp [isRetryableError, isNetworkError, isApiError]
  | unknown => simp [isRetryableError, isNetworkError, isApiError]

/-- Witness for C2 at concrete failures: status 500 is retryable,
status 404 is not. -/
theorem isRetryableError_iff_witness :
    isRetryableError (.api "server down" 500) = true ∧
      isRetryableError (.api "not found" 404) = false := by
  constructor
  · exact (isRetryableError_iff (.api "server down" 500)).mpr
      (.inr ⟨"server down", 500, rfl, .inl (by norm_num)⟩)
  · have h := isRetryableError_iff (.api "not found" 404)
    by_contra hc
    have : isRetryableError (.api "not found" 404) = true := by
      cases hb : isRetryableError (.api "not found" 404) with
      | true => rfl
      | false => exact absurd hb hc
    rcases h.mp this with ⟨m, hm⟩ | ⟨m, s, hms, hcond⟩
    · exact FailureShape.noConfusion hm
    · have hs : (404 : ℤ) = s := (FailureShape.api.injEq _ _ _ _).mp hms |>.2
      omega

/-- C3: `calculateBackoff` returns exactly
`min(initialDelay · multiplier ^ attemptIndex, maxDelay)`, and with
`initialDelay > 0`, `maxDelay ≥ initialDelay` and `multiplier > 1` the
delay is monotonically non-decreasing in the attempt index; the
computation is deterministic (a pure function, no jitter). -/
theorem calculateBackoff_spec (config : RetryConfig)
    (hInit : 0 < config.initialDelay) (hMul : 1 < config.backoffMultiplier)
    (_hMax : config.initialDelay ≤ config.maxDelay) :
    (∀ attempt : ℕ,
        calculateBackoff attempt config =
          min (config.initialDelay * config.backoffMultiplier ^ attempt) config.maxDelay) ∧
    (∀ i j : ℕ, i ≤ j → calculateBackoff i config ≤ calculateBackoff j config) := by
  refine ⟨fun _ => rfl, fun i j hij => ?_⟩
  have hpow : config.backoffMultiplier ^ i ≤ config.backoffMultiplier ^ j :=
    pow_le_pow_right₀ (le_of_lt hMul) hij
  exact min_le_min (mul_le_mul_of_nonneg_left hpow (le_of_lt hInit)) le_rfl

/-- Witness for C3 at the repository's default policy: the formula at
attempt 2 and monotonicity from attempt 1 to attempt 3. -/
theorem calculateBackoff_spec_witness :
    calculateBackoff 2 DEFAULT_RETRY_CONFIG =
        min (DEFAULT_RETRY_CONFIG.initialDelay * DEFAULT_RETRY_CONFIG.backoffMultiplier ^ 2)
          DEFAULT_RETRY_CONFIG.maxDelay ∧
      calculateBackoff 1 DEFAULT_RETRY_CONFIG ≤ calculateBackoff 3 DEFAULT_RETRY_CONFIG := by
  have h := calculateBackoff_spec DEFAULT_RETRY_CONFIG
    (by norm_num [DEFAULT_RETRY_CONFIG]) (by norm_num [DEFAULT_RETRY_CONFIG])
    (by norm_num [DEFAULT_RETRY_CONFIG])
  exact ⟨h.1 2, h.2 1 3 (by norm_num)⟩

/-- C4: `withTimeout` yields the operation's own settled result
(unchanged) whenever the operation settles strictly before `ms`
elapses, and yields a distinct timeout failure (`new Error(message)`
carrying the caller-supplied message) whenever `ms` elapses strictly
first — independent of the operation's own eventual outcome. -/
theorem withTimeout_spec {α : Type*} (p : Promise α) (ms : ℚ) (message : String) :
    (p.settleTime < ms → withTimeout p ms message = p) ∧
    (ms < p.settleTime →
      withTimeout p ms message =
        { settleTime := ms, result := .error (.jsError message) }) := by
  constructor
  · intro h
    simp [withTimeout, promiseRace, timeout, le_of_lt h]
  · intro h
    simp [withTimeout, promiseRace, timeout, not_le.mpr h]

/-- Witness for C4: an operation settling at 5 ms beats a 10 ms
timeout and its value is returned; an operation settling at 50 ms loses
to a 10 ms timeout and the timeout failure carries the message. -/
theorem withTimeout_spec_witness :
    withTimeout (⟨5, .ok 42⟩ : Promise ℕ) 10 "Request timeout" = ⟨5, .ok 42⟩ ∧
      withTimeout (⟨50, .ok 42⟩ : Promise ℕ) 10 "Request timeout" =
        ⟨10, .error (.jsError "Request timeout")⟩ := by
  exact ⟨(withTimeout_spec (⟨5, .ok 42⟩ : Promise ℕ) 10 "Request timeout").1 (by norm_num),
    (withTimeout_spec (⟨50, .ok 42⟩ : Promise ℕ) 10 "Request timeout").2 (by norm_num)⟩

/-- C9 (refuted by the code): when the raced operation settles before
the timeout (e.g. at 1 ms against a 10 ms budget), the scheduled
timeout callback is **not** cleared and remains pending — `timeout`
discards the `setTimeout` handle and `withTimeout` contains no
`clearTimeout`, so exactly one timer of the race is still pending after
the operation-wins exit; only when the timer itself fires first is
nothing left pending. -/
theorem withTimeout_timer_not_cleared :
    withTimeoutPendingTimers 1 10 = 1 ∧ withTimeoutPendingTimers 10 1 = 0 := by
  constructor <;> norm_num [withTimeoutPendingTimers]

variable {β : Type*}

/-- Unfolding `fetchWithRetryGo` when the current invocation succeeds:
the value is returned with no further invocations. -/
lemma fetchWithRetryGo_ok (fn : ℕ → Except FailureShape β) (attempt remaining : ℕ)
    (v : β) (hok : fn attempt = .ok v) :
    fetchWithRetryGo fn attempt remaining = (.ok v, 1) := by
  unfold fetchWithRetryGo
  rw [hok]

/-- Unfolding `fetchWithRetryGo` when the current invocation fails with
a non-retryable failure: it is rethrown at once. -/
lemma fetchWithRetryGo_nonretry (fn : ℕ → Except FailureShape β) (attempt remaining : ℕ)
    (e : FailureShape) (he : fn attempt = .error e) (hr : isRetryableError e = false) :
    fetchWithRetryGo fn attempt remaining = (.error e, 1) := by
  unfold fetchWithRetryGo
  rw [he]
  simp [hr]

/-- Unfolding `fetchWithRetryGo` on a retryable failure at the last
allowed attempt (`attempt === maxRetries` in the source). -/
lemma fetchWithRetryGo_retry_zero (fn : ℕ → Except FailureShape β) (attempt : ℕ)
    (e : FailureShape) (he : fn attempt = .error e) (hr : isRetryableError e = true) :
    fetchWithRetryGo fn attempt 0 = (.error e, 1) := by
  unfold fetchWithRetryGo
  rw [he]
  simp [hr]

/-- Unfolding `fetchWithRetryGo` on a retryable failure with retry
budget left: the loop continues at the next attempt. -/
lemma fetchWithRetryGo_retry_succ (fn : ℕ → Except FailureShape β) (attempt r : ℕ)
    (e : FailureShape) (he : fn attempt = .error e) (hr : isRetryableError e = true) :
    fetchWithRetryGo fn attempt (r + 1) =
      ((fetchWithRetryGo fn (attempt + 1) r).1, (fetchWithRetryGo fn (attempt + 1) r).2 + 1) := by
  conv_lhs => unfold fetchWithRetryGo
  rw [he]
  simp [hr]

/-- If every invocation in the window fails with a retryable failure,
the loop performs all `remaining + 1` invocations and ends with the
outcome of the last one. -/
lemma fetchWithRetryGo_all_retryable (fn : ℕ → Except FailureShape β) :
    ∀ (remaining attempt : ℕ),
      (∀ i, attempt ≤ i → i ≤ attempt + remaining →
        ∃ e, fn i = .error e ∧ isRetryableError e = true) →
      fetchWithRetryGo fn attempt remaining = (fn (attempt + remaining), remaining + 1) := by
  intro remaining
  induction remaining with
  | zero =>
    intro attempt h
    obtain ⟨e, he, hr⟩ := h attempt le_rfl (by omega)
    rw [Nat.add_zero, fetchWithRetryGo_retry_zero fn attempt e he hr, he]
  | succ r ih =>
    intro attempt h
    obtain ⟨e, he, hr⟩ := h attempt le_rfl (by omega)
    rw [fetchWithRetryGo_retry_succ fn attempt r e he hr,
      ih (attempt + 1) (fun i h1 h2 => h i (by omega) (by omega))]
    have : attempt + 1 + r = attempt + (r + 1) := by omega
    rw [this]

/-- If the first `i` invocations fail retryably and the `i`-th
invocation (still within budget) succeeds, the loop stops right there
with the success value after `i + 1` invocations. -/
lemma fetchWithRetryGo_success_at (fn : ℕ → Except FailureShape β) (v : β) :
    ∀ (i attempt remaining : ℕ),
      (∀ j, attempt ≤ j → j < attempt + i →
        ∃ e, fn j = .error e ∧ isRetryableError e = true) →
      i ≤ remaining → fn (attempt + i) = .ok v →
      fetchWithRetryGo fn attempt remaining = (.ok v, i + 1) := by
  intro i
  induction i with
  | zero =>
    intro attempt remaining _ _ hok
    rw [Nat.add_zero] at hok
    exact fetchWithRetryGo_ok fn attempt remaining v hok
  | succ k ih =>
    intro attempt remaining h hle hok
    obtain ⟨e, he, hr⟩ := h attempt le_rfl (by omega)
    obtain ⟨r, rfl⟩ : ∃ r, remaining = r + 1 := ⟨remaining - 1, by omega⟩
    rw [fetchWithRetryGo_retry_succ fn attempt r e he hr,
      ih (attempt + 1) r (fun j hj1 hj2 => h j (by omega) (by omega)) (by omega)
        (by rw [show attempt + 1 + k = attempt + (k + 1) by omega]; exact hok)]

/-- C1: with `maxRetries = N`, (a) when every invocation fails with a
retryable failure `fetchWithRetry` performs exactly `N + 1` invocations
and its result is the outcome of invocation `N` itself — the last
observed failure, propagated unchanged; (b) when the operation's first
failure is non-retryable it performs exactly 1 invocation and rethrows
that failure; (c) when an invocation succeeds (after retryable
failures, within budget) its value is returned immediately, with no
further invocations. -/
theorem fetchWithRetry_spec (fn : ℕ → Except FailureShape β) (config : RetryConfig) :
    ((∀ i, i ≤ config.maxRetries → ∃ e, fn i = .error e ∧ isRetryableError e = true) →
        fetchWithRetry fn config = (fn config.maxRetries, config.maxRetries + 1)) ∧
    (∀ e, fn 0 = .error e → isRetryableError e = false →
        fetchWithRetry fn config = (.error e, 1)) ∧
    (∀ i v, i ≤ config.maxRetries →
        (∀ j, j < i → ∃ e, fn j = .error e ∧ isRetryableError e = true) →
        fn i = .ok v → fetchWithRetry fn config = (.ok v, i + 1)) := by
  refine ⟨?_, ?_, ?_⟩
  · intro h
    have := fetchWithRetryGo_all_retryable fn config.maxRetries 0
      (fun i h1 h2 => h i (by omega))
    simpa [fetchWithRetry] using this
  · intro e he hr
    exact fetchWithRetryGo_nonretry fn 0 config.maxRetries e he hr
  · intro i v hle h hok
    have := fetchWithRetryGo_success_at fn v i 0 config.maxRetries
      (fun j h1 h2 => h j (by omega)) hle (by simpa using hok)
    simpa [fetchWithRetry] using this

/-- Witness for C1 at concrete operations: an always-network-failing
operation with `maxRetries = 2` is invoked 3 times and the third
invocation's failure comes back unchanged; a 404 failure is rethrown
after a single invocation; an operation failing once then succeeding
returns its value after 2 invocations. -/
theorem fetchWithRetry_spec_witness :
    (fetchWithRetry (fun i => .error (.network (toString i)) : ℕ → Except FailureShape ℕ)
        { DEFAULT_RETRY_CONFIG with maxRetries := 2 } =
      (.error (.network "2"), 3)) ∧
    (fetchWithRetry (fun _ => .error (.api "not found" 404) : ℕ → Except FailureShape ℕ)
        DEFAULT_RETRY_CONFIG =
      (.error (.api "not found" 404), 1)) ∧
    (fetchWithRetry
        (fun i => if i < 1 then .error (.network "x") else .ok 7 : ℕ → Except FailureShape ℕ)
        DEFAULT_RETRY_CONFIG =
      (.ok 7, 2)) := by
  refine ⟨?_, ?_, ?_⟩
  · exact (fetchWithRetry_spec (fun i => .error (.network (toString i)))
      { DEFAULT_RETRY_CONFIG with maxRetries := 2 }).1
      (fun i _ => ⟨.network (toString i), rfl, rfl⟩)
  · exact (fetchWithRetry_spec (fun _ => .error (.api "not found" 404))
      DEFAULT_RETRY_CONFIG).2.1 (.api "not found" 404) rfl (by decide)
  · exact (fetchWithRetry_spec
      (fun i => if i < 1 then .error (.network "x") else .ok 7) DEFAULT_RETRY_CONFIG).2.2 1 7
      (by norm_num [DEFAULT_RETRY_CONFIG])
      (fun j hj => ⟨.network "x", by interval_cases j; simp, by decide⟩) (by simp)

theorem calculateVisibleRange_formula (totalItems overscan : ℤ)
    (itemHeight containerHeight scrollTop : ℚ) (_h : 0 < itemHeight) :
    calculateVisibleRange totalItems itemHeight containerHeight scrollTop overscan =
      { startIndex := max 0 (⌊scrollTop / itemHeight⌋ - overscan),
        endIndex := min (totalItems - 1) (⌈(scrollTop + containerHeight) / itemHeight⌉ + overscan),
        offsetY := ((max 0 (⌊scrollTop / itemHeight⌋ - overscan) : ℤ) : ℚ) * itemHeight } ∧
    calculateVisibleRange 100 40 400 400 3 = ⟨7, 23, 280⟩ := by
  refine ⟨rfl, ?_⟩
  norm_num [calculateVisibleRange]

theorem calculateVisibleRange_formula_witness :
    calculateVisibleRange 100 40 400 400 3 = ⟨7, 23, 280⟩ :=
  (calculateVisibleRange_formula 100 3 40 400 400 (by norm_num)).2

theorem calculateVisibleRange_degenerate :
    (∀ (itemHeight containerHeight scrollTop : ℚ) (overscan : ℤ),
      (calculateVisibleRange 0 itemHeight containerHeight scrollTop overscan).endIndex <
        (calculateVisibleRange 0 itemHeight containerHeight scrollTop overscan).startIndex) ∧
    (∀ (totalItems overscan : ℤ) (itemHeight containerHeight scrollTop : ℚ),
      scrollTop < 0 → 0 < itemHeight → 0 ≤ overscan →
      (calculateVisibleRange totalItems itemHeight containerHeight scrollTop overscan).startIndex
          = 0 ∧
      (calculateVisibleRange totalItems itemHeight containerHeight scrollTop overscan).startIndex
          = (calculateVisibleRange totalItems itemHeight containerHeight 0 overscan).startIndex ∧
      (calculateVisibleRange totalItems itemHeight containerHeight scrollTop overscan).offsetY
          = (calculateVisibleRange totalItems itemHeight containerHeight 0 overscan).offsetY) := by
  constructor
  · intro itemHeight containerHeight scrollTop overscan
    simp only [calculateVisibleRange]
    exact lt_of_le_of_lt (min_le_left _ _)
      (lt_of_lt_of_le (by norm_num) (le_max_left 0 _))
  · intro totalItems overscan itemHeight containerHeight scrollTop hst hih hov
    have hdivneg : scrollTop / itemHeight < 0 := div_neg_of_neg_of_pos hst hih
    have hfneg : ⌊scrollTop / itemHeight⌋ < 0 := by
      have := Int.floor_lt.mpr (show scrollTop / itemHeight < ((0 : ℤ) : ℚ) by push_cast; exact hdivneg)
      simpa using this
    have hzero : ⌊(0 : ℚ) / itemHeight⌋ = 0 := by
      rw [zero_div, Int.floor_zero]
    have h1 : max 0 (⌊scrollTop / itemHeight⌋ - overscan) = 0 :=
      max_eq_left (by omega)
    have h2 : max 0 (⌊(0 : ℚ) / itemHeight⌋ - overscan) = 0 := by
      rw [hzero]; exact max_eq_left (by omega)
    refine ⟨?_, ?_, ?_⟩
    · simp only [calculateVisibleRange, h1]
    · simp only [calculateVisibleRange, h1, h2]
    · simp only [calculateVisibleRange, h1, h2]

theorem calculateVisibleRange_degenerate_witness :
    (calculateVisibleRange 0 40 400 0 3).endIndex <
        (calculateVisibleRange 0 40 400 0 3).startIndex ∧
      (calculateVisibleRange 100 40 400 (-50) 3).startIndex = 0 ∧
      (calculateVisibleRange 100 40 400 (-50) 3).startIndex =
        (calculateVisibleRange 100 40 400 0 3).startIndex ∧
      (calculateVisibleRange 100 40 400 (-50) 3).offsetY =
        (calculateVisibleRange 100 40 400 0 3).offsetY :=
  ⟨calculateVisibleRange_degenerate.1 40 400 0 3,
    calculateVisibleRange_degenerate.2 100 3 40 400 (-50) (by norm_num) (by norm_num)
      (by norm_num)⟩

theorem calculateVisibleRange_in_bounds (totalItems overscan : ℤ)
    (itemHeight containerHeight scrollTop : ℚ)
    (_hTotal : 1 ≤ totalItems) (hH : 0 < itemHeight) (hC : 0 ≤ containerHeight)
    (hOv : 0 ≤ overscan) (hS0 : 0 ≤ scrollTop)
    (hS1 : scrollTop < totalItems * itemHeight) :
    0 ≤ (calculateVisibleRange totalItems itemHeight containerHeight scrollTop
        overscan).startIndex ∧
    (calculateVisibleRange totalItems itemHeight containerHeight scrollTop overscan).startIndex ≤
      (calculateVisibleRange totalItems itemHeight containerHeight scrollTop overscan).endIndex ∧
    (calculateVisibleRange totalItems itemHeight containerHeight scrollTop overscan).endIndex ≤
      totalItems - 1 ∧
    (calculateVisibleRange totalItems itemHeight containerHeight scrollTop overscan).offsetY =
      ((calculateVisibleRange totalItems itemHeight containerHeight scrollTop
          overscan).startIndex : ℚ) * itemHeight ∧
    (calculateVisibleRange totalItems itemHeight containerHeight scrollTop overscan).offsetY ≤
      scrollTop := by
  have hfl0 : 0 ≤ ⌊scrollTop / itemHeight⌋ :=
    Int.floor_nonneg.mpr (div_nonneg hS0 (le_of_lt hH))
  have hdivlt : scrollTop / itemHeight < (totalItems : ℚ) :=
    (div_lt_iff₀ hH).mpr hS1
  have hflN : ⌊scrollTop / itemHeight⌋ ≤ totalItems - 1 := by
    have := Int.floor_lt.mpr hdivlt
    omega
  have hmono : scrollTop / itemHeight ≤ (scrollTop + containerHeight) / itemHeight := by
    gcongr
    linarith
  have hfc : ⌊scrollTop / itemHeight⌋ ≤ ⌈(scrollTop + containerHeight) / itemHeight⌉ :=
    le_trans (Int.floor_mono hmono) (Int.floor_le_ceil _)
  have hstart_le : max 0 (⌊scrollTop / itemHeight⌋ - overscan) ≤ ⌊scrollTop / itemHeight⌋ :=
    max_le hfl0 (by omega)
  refine ⟨?_, ?_, ?_, ?_, ?_⟩
  · exact le_max_left 0 _
  · exact le_min (le_trans hstart_le hflN)
      (le_trans hstart_le (le_trans hfc (by omega)))
  · exact min_le_left _ _
  · rfl
  · show ((max 0 (⌊scrollTop / itemHeight⌋ - overscan) : ℤ) : ℚ) * itemHeight ≤ scrollTop
    have h1 : ((max 0 (⌊scrollTop / itemHeight⌋ - overscan) : ℤ) : ℚ) ≤
        ((⌊scrollTop / itemHeight⌋ : ℤ) : ℚ) := by exact_mod_cast hstart_le
    have h2 : ((⌊scrollTop / itemHeight⌋ : ℤ) : ℚ) ≤ scrollTop / itemHeight :=
      Int.floor_le _
    calc ((max 0 (⌊scrollTop / itemHeight⌋ - overscan) : ℤ) : ℚ) * itemHeight
        ≤ (scrollTop / itemHeight) * itemHeight :=
          mul_le_mul_of_nonneg_right (le_trans h1 h2) (le_of_lt hH)
      _ = scrollTop := div_mul_cancel₀ scrollTop (ne_of_gt hH)

theorem calculateVisibleRange_in_bounds_witness :
    0 ≤ (calculateVisibleRange 100 40 400 400 3).startIndex ∧
      (calculateVisibleRange 100 40 400 400 3).startIndex ≤
        (calculateVisibleRange 100 40 400 400 3).endIndex ∧
      (calculateVisibleRange 100 40 400 400 3).endIndex ≤ 100 - 1 ∧
      (calculateVisibleRange 100 40 400 400 3).offsetY =
        ((calculateVisibleRange 100 40 400 400 3).startIndex : ℚ) * 40 ∧
      (calculateVisibleRange 100 40 400 400 3).offsetY ≤ 400 :=
  calculateVisibleRange_in_bounds 100 3 40 400 400 (by norm_num) (by norm_num) (by norm_num)
    (by norm_num) (by norm_num) (by norm_num)



section CacheLemmas

variable {K V : Type*} [DecidableEq K]

lemma mapSet_length_le (l : List (K × V)) (k : K) (v : V) :
    (mapSet l k v).length ≤ l.length + 1 := by
  induction l with
  | nil => simp [mapSet]
  | cons p t ih =>
    obtain ⟨pk, pv⟩ := p
    by_cases h : pk = k
    · simp [mapSet, h]
    · simpa [mapSet, h] using ih

lemma mapDelete_cons_self (k : K) (v : V) (t : List (K × V)) :
    mapDelete ((k, v) :: t) k = t := by
  simp [mapDelete]

lemma mapSet_of_not_mem (l : List (K × V)) (k : K) (v : V)
    (h : k ∉ l.map Prod.fst) : mapSet l k v = l ++ [(k, v)] := by
  induction l with
  | nil => simp [mapSet]
  | cons p t ih =>
    obtain ⟨pk, pv⟩ := p
    simp only [List.map_cons, List.mem_cons] at h
    push_neg at h
    have hne : ¬ pk = k := fun hp => h.1 hp.symm
    rw [mapSet, if_neg hne, ih h.2]
    simp

lemma mapFind_eq_none (l : List (K × V)) (k : K)
    (h : k ∉ l.map Prod.fst) : mapFind l k = none := by
  induction l with
  | nil => rfl
  | cons p t ih =>
    obtain ⟨pk, pv⟩ := p
    simp only [List.map_cons, List.mem_cons] at h
    push_neg at h
    have hne : ¬ pk = k := fun hp => h.1 hp.symm
    rw [mapFind, if_neg hne]
    exact ih h.2

lemma mapFind_isSome_of_mem (l : List (K × V)) (k : K)
    (h : k ∈ l.map Prod.fst) : (mapFind l k).isSome = true := by
  induction l with
  | nil => simp at h
  | cons p t ih =>
    obtain ⟨pk, pv⟩ := p
    by_cases hp : pk = k
    · simp [mapFind, hp]
    · simp only [List.map_cons, List.mem_cons] at h
      rcases h with h | h
      · exact absurd h.symm hp
      · rw [mapFind, if_neg hp]
        exact ih h

lemma mapFind_mapSet_self (l : List (K × V)) (k : K) (v : V) :
    mapFind (mapSet l k v) k = some v := by
  induction l with
  | nil => simp [mapSet, mapFind]
  | cons p t ih =>
    obtain ⟨pk, pv⟩ := p
    by_cases hp : pk = k
    · simp [mapSet, mapFind, hp]
    · rw [mapSet, if_neg hp, mapFind, if_neg hp]
      exact ih

lemma mapFind_mapSet_ne (l : List (K × V)) (k k' : K) (v : V) (h : k' ≠ k) :
    mapFind (mapSet l k v) k' = mapFind l k' := by
  have hne : ¬ k = k' := fun hk => h hk.symm
  induction l with
  | nil => simp [mapSet, mapFind, hne]
  | cons p t ih =>
    obtain ⟨pk, pv⟩ := p
    by_cases hp : pk = k
    · have hpk' : ¬ pk = k' := by rw [hp]; exact hne
      rw [mapSet, if_pos hp, mapFind, if_neg hpk', mapFind, if_neg hpk']
    · by_cases hp' : pk = k'
      · rw [mapSet, if_neg hp, mapFind, if_pos hp', mapFind, if_pos hp']
      · rw [mapSet, if_neg hp, mapFind, if_neg hp', mapFind, if_neg hp']
        exact ih

lemma mapSet_map_fst_of_mem (l : List (K × V)) (k : K) (v : V)
    (h : k ∈ l.map Prod.fst) : (mapSet l k v).map Prod.fst = l.map Prod.fst := by
  induction l with
  | nil => simp at h
  | cons p t ih =>
    obtain ⟨pk, pv⟩ := p
    by_cases hp : pk = k
    · simp [mapSet, hp]
    · simp only [List.map_cons, List.mem_cons] at h
      rcases h with h | h
      · exact absurd h.symm hp
      · rw [mapSet, if_neg hp]
        simp only [List.map_cons]
        rw [ih h]

/-- A single `set` keeps a cache with `maxSize ≥ 1` within its bound. -/
lemma MemoCache.set_size_le (c : MemoCache K V) (k : K) (v : V)
    (hmax : 1 ≤ c.maxSize) (h : c.size ≤ c.maxSize) :
    (c.set k v).size ≤ c.maxSize := by
  unfold MemoCache.set MemoCache.size
  by_cases hfull : c.cache.length ≥ c.maxSize
  · obtain ⟨⟨pk, pv⟩, t, hc⟩ : ∃ p t, c.cache = p :: t := by
      cases hcc : c.cache with
      | nil =>
        rw [hcc] at hfull
        simp only [List.length_nil] at hfull
        omega
      | cons p t => exact ⟨p, t, rfl⟩
    rw [if_pos hfull, hc]
    simp only [mapFirstKey, List.head?_cons, Option.map_some']
    rw [mapDelete_cons_self pk pv t]
    have hmt := mapSet_length_le t k v
    have hlen : (((pk, pv) : K × V) :: t).length ≤ c.maxSize := hc ▸ h
    simp only [List.length_cons] at hlen
    omega
  · rw [if_neg hfull]
    show (mapSet c.cache k v).length ≤ c.maxSize
    have := mapSet_length_le c.cache k v
    omega

lemma applyCacheOp_maxSize (c : MemoCache K V) (op : CacheOp K V) :
    (applyCacheOp c op).maxSize = c.maxSize := by
  cases op <;> rfl

lemma applyCacheOp_size_le (c : MemoCache K V) (op : CacheOp K V)
    (hmax : 1 ≤ c.maxSize) (h : c.size ≤ c.maxSize) :
    (applyCacheOp c op).size ≤ c.maxSize := by
  cases op with
  | get _ => exact h
  | set k v => exact c.set_size_le k v hmax h
  | has _ => exact h
  | clear => simp [applyCacheOp, MemoCache.clear, MemoCache.size]

lemma applyCacheOps_size_le (ops : List (CacheOp K V)) :
    ∀ c : MemoCache K V, 1 ≤ c.maxSize → c.size ≤ c.maxSize →
      (applyCacheOps c ops).size ≤ c.maxSize := by
  induction ops with
  | nil => intro c _ h; exact h
  | cons op rest ih =>
    intro c hmax h
    have hstep := applyCacheOp_size_le c op hmax h
    have hm := applyCacheOp_maxSize c op
    have := ih (applyCacheOp c op) (by omega) (by omega)
    rw [hm] at this
    simpa [applyCacheOps] using this

/-- Inserting pairwise-fresh keys while below capacity just appends. -/
lemma insertAll_of_le_capacity (kvs : List (K × V)) :
    ∀ c : MemoCache K V,
      ((c.cache.map Prod.fst) ++ (kvs.map Prod.fst)).Nodup →
      c.cache.length + kvs.length ≤ c.maxSize →
      insertAll c kvs = { cache := c.cache ++ kvs, maxSize := c.maxSize } := by
  induction kvs with
  | nil => intro c _ _; simp [insertAll]
  | cons kv rest ih =>
    intro c hnd hlen
    have hknotin : kv.1 ∉ c.cache.map Prod.fst := by
      have hdisj := List.disjoint_of_nodup_append hnd
      intro hmem
      exact hdisj hmem (by simp)
    have hnotfull : ¬ c.cache.length ≥ c.maxSize := by
      simp only [List.length_cons] at hlen
      omega
    have hset : c.set kv.1 kv.2 =
        { cache := c.cache ++ [(kv.1, kv.2)], maxSize := c.maxSize } := by
      simp only [MemoCache.set, if_neg hnotfull]
      rw [mapSet_of_not_mem c.cache kv.1 kv.2 hknotin]
    have hstep : insertAll c (kv :: rest) = insertAll (c.set kv.1 kv.2) rest := by
      simp [insertAll]
    rw [hstep, hset]
    have hnd' : ((c.cache ++ [(kv.1, kv.2)]).map Prod.fst ++ rest.map Prod.fst).Nodup := by
      simpa [List.append_assoc] using hnd
    have hlen' : (c.cache ++ [(kv.1, kv.2)]).length + rest.length ≤ c.maxSize := by
      simp only [List.length_append, List.length_cons, List.length_nil] at hlen ⊢
      omega
    have := ih { cache := c.cache ++ [(kv.1, kv.2)], maxSize := c.maxSize } hnd' hlen'
    rw [this]
    simp [List.append_assoc]

end CacheLemmas

/-- C5: a `MemoCache` with capacity `maxSize ≥ 1` holds at most
`maxSize` entries after any sequence of `get`/`set`/`has`/`clear`
operations from a fresh cache; and inserting `maxSize + 1` pairwise
distinct keys into a fresh cache leaves exactly the `maxSize` most
recent keys: the final entries are the insertion list minus its first
pair, the first-inserted key is absent, and every later key is still
present (FIFO eviction of the oldest-inserted key). -/
theorem memoCache_bounded_fifo (K V : Type*) [DecidableEq K] (maxSize : ℕ)
    (hmax : 1 ≤ maxSize) :
    (∀ ops : List (CacheOp K V),
        (applyCacheOps (MemoCache.mk' K V maxSize) ops).size ≤ maxSize) ∧
    (∀ (k₀ kl : K) (v₀ vl : V) (mid : List (K × V)),
        mid.length + 1 = maxSize →
        ((((k₀, v₀) :: mid) ++ [(kl, vl)]).map Prod.fst).Nodup →
        (insertAll (MemoCache.mk' K V maxSize) (((k₀, v₀) :: mid) ++ [(kl, vl)])).cache
            = mid ++ [(kl, vl)] ∧
        (insertAll (MemoCache.mk' K V maxSize) (((k₀, v₀) :: mid) ++ [(kl, vl)])).size
            = maxSize ∧
        (insertAll (MemoCache.mk' K V maxSize) (((k₀, v₀) :: mid) ++ [(kl, vl)])).has k₀
            = false ∧
        (∀ k ∈ (mid ++ [(kl, vl)]).map Prod.fst,
          (insertAll (MemoCache.mk' K V maxSize) (((k₀, v₀) :: mid) ++ [(kl, vl)])).has k
            = true)) := by
  constructor
  · intro ops
    exact applyCacheOps_size_le ops (MemoCache.mk' K V maxSize) hmax
      (by simp [MemoCache.mk', MemoCache.size])
  · intro k₀ kl v₀ vl mid hlen hnd
    have hnd' : (((MemoCache.mk' K V maxSize).cache.map Prod.fst) ++
        (((k₀, v₀) :: mid).map Prod.fst)).Nodup := by
      simp only [MemoCache.mk', List.map_nil, List.nil_append]
      have := hnd
      rw [List.map_append] at this
      exact this.of_append_left
    have hlencap : (MemoCache.mk' K V maxSize).cache.length + ((k₀, v₀) :: mid).length ≤
        (MemoCache.mk' K V maxSize).maxSize := by
      simp only [MemoCache.mk', List.length_nil, List.length_cons]
      omega
    have hfront : insertAll (MemoCache.mk' K V maxSize) ((k₀, v₀) :: mid) =
        { cache := (k₀, v₀) :: mid, maxSize := maxSize } := by
      have := insertAll_of_le_capacity ((k₀, v₀) :: mid) (MemoCache.mk' K V maxSize)
        hnd' hlencap
      simpa [MemoCache.mk'] using this
    have hsplit : insertAll (MemoCache.mk' K V maxSize) (((k₀, v₀) :: mid) ++ [(kl, vl)]) =
        (insertAll (MemoCache.mk' K V maxSize) ((k₀, v₀) :: mid)).set kl vl := by
      simp [insertAll, List.foldl_append]
    have hndkeys : (k₀ :: (mid.map Prod.fst ++ [kl])).Nodup := by
      simpa using hnd
    have hk₀notin : k₀ ∉ mid.map Prod.fst ++ [kl] := (List.nodup_cons.mp hndkeys).1
    have hrestnd : (mid.map Prod.fst ++ [kl]).Nodup := (List.nodup_cons.mp hndkeys).2
    have hklnotmid : kl ∉ mid.map Prod.fst := by
      have hdisj := List.disjoint_of_nodup_append hrestnd
      intro hmem
      exact hdisj hmem (by simp)
    have hfull : ((k₀, v₀) :: mid).length ≥ maxSize := by
      simp only [List.length_cons]
      omega
    have hset : ({ cache := (k₀, v₀) :: mid, maxSize := maxSize } : MemoCache K V).set kl vl =
        { cache := mid ++ [(kl, vl)], maxSize := maxSize } := by
      simp only [MemoCache.set, if_pos hfull, mapFirstKey, List.head?_cons, Option.map_some']
      rw [mapDelete_cons_self k₀ v₀ mid, mapSet_of_not_mem mid kl vl hklnotmid]
    rw [hsplit, hfront, hset]
    refine ⟨rfl, ?_, ?_, ?_⟩
    · simp only [MemoCache.size, List.length_append, List.length_cons, List.length_nil]
      omega
    · simp only [MemoCache.has]
      rw [mapFind_eq_none]
      · rfl
      · simpa using hk₀notin
    · intro k hk
      simp only [MemoCache.has]
      exact mapFind_isSome_of_mem (mid ++ [(kl, vl)]) k hk

/-- Witness for C5: a concrete operation sequence on a capacity-2 cache
stays within bound, and inserting the 3 distinct keys 0, 1, 2 leaves
exactly entries for keys 1 and 2, with key 0 evicted. -/
theorem memoCache_bounded_fifo_witness :
    (applyCacheOps (MemoCache.mk' ℕ ℕ 2)
        [CacheOp.set 0 0, CacheOp.set 1 1, CacheOp.set 2 2, CacheOp.get 1,
          CacheOp.set 3 3]).size ≤ 2 ∧
    (insertAll (MemoCache.mk' ℕ ℕ 2) [(0, 0), (1, 1), (2, 2)]).cache = [(1, 1), (2, 2)] ∧
    (insertAll (MemoCache.mk' ℕ ℕ 2) [(0, 0), (1, 1), (2, 2)]).has 0 = false := by
  have h := memoCache_bounded_fifo ℕ ℕ 2 (by norm_num)
  have h2 := h.2 0 2 0 2 [(1, 1)] (by norm_num) (by decide)
  exact ⟨h.1 [CacheOp.set 0 0, CacheOp.set 1 1, CacheOp.set 2 2, CacheOp.get 1,
    CacheOp.set 3 3], h2.1, h2.2.2.1⟩

/-- C6 counterexample: on a capacity-2 cache holding keys 0 then 1,
key 0 is present, yet `set(0, 100)` changes the insertion order from
`[0, 1]` to `[1, 0]` — the source's `set` evicts the oldest entry
whenever `size >= maxSize`, even when the key being written already
exists, so an update of an existing key at capacity moves it to the
back (here) or evicts an unrelated oldest entry. -/
theorem memoCache_update_reorders_at_capacity :
    ((((MemoCache.mk' ℕ ℕ 2).set 0 0).set 1 1).has 0 = true) ∧
    (((((MemoCache.mk' ℕ ℕ 2).set 0 0).set 1 1).set 0 100).cache.map Prod.fst ≠
      ((((MemoCache.mk' ℕ ℕ 2).set 0 0).set 1 1).cache.map Prod.fst)) := by
  decide

lemma mem_of_mapFind_isSome {K V : Type*} [DecidableEq K] (l : List (K × V)) (k : K)
    (h : (mapFind l k).isSome = true) : k ∈ l.map Prod.fst := by
  induction l with
  | nil => simp [mapFind] at h
  | cons p t ih =>
    obtain ⟨pk, pv⟩ := p
    by_cases hp : pk = k
    · simp [hp]
    · rw [mapFind, if_neg hp] at h
      simp only [List.map_cons, List.mem_cons]
      exact .inr (ih h)

/-- C6 amended: as long as the cache is strictly below capacity,
`set` of an already-present key updates its value in place without
changing the insertion (eviction) order of any entry, and `get` never
modifies the cache (no reordering on read).  (At capacity the source
evicts the oldest entry even on an update of an existing key, so the
unrestricted claim fails — see the counterexample.) -/
theorem memoCache_update_below_capacity {K V : Type*} [DecidableEq K]
    (c : MemoCache K V) (k : K) (v : V)
    (hlt : c.size < c.maxSize) (hmem : c.has k = true) :
    (c.set k v).cache.map Prod.fst = c.cache.map Prod.fst ∧
    (c.set k v).get k = some v ∧
    (∀ k' : K, k' ≠ k → (c.set k v).get k' = c.get k') ∧
    (∀ key : K, applyCacheOp c (CacheOp.get key) = c) := by
  have hnotfull : ¬ c.cache.length ≥ c.maxSize := by
    simp only [MemoCache.size] at hlt
    omega
  have hcache : (c.set k v).cache = mapSet c.cache k v := by
    simp only [MemoCache.set, if_neg hnotfull]
  have hkmem : k ∈ c.cache.map Prod.fst :=
    mem_of_mapFind_isSome c.cache k (by simpa [MemoCache.has] using hmem)
  refine ⟨?_, ?_, ?_, ?_⟩
  · rw [hcache]
    exact mapSet_map_fst_of_mem c.cache k v hkmem
  · simp only [MemoCache.get, hcache]
    exact mapFind_mapSet_self c.cache k v
  · intro k' hk'
    simp only [MemoCache.get, hcache]
    exact mapFind_mapSet_ne c.cache k k' v hk'
  · intro key
    rfl

/-- Witness for C6's amended claim: a capacity-3 cache holding keys 0
then 1 (below capacity); updating key 0 keeps the order `[0, 1]` and
stores the new value. -/
theorem memoCache_update_below_capacity_witness :
    ((((MemoCache.mk' ℕ ℕ 3).set 0 0).set 1 1).set 0 5).cache.map Prod.fst =
        (((MemoCache.mk' ℕ ℕ 3).set 0 0).set 1 1).cache.map Prod.fst ∧
      ((((MemoCache.mk' ℕ ℕ 3).set 0 0).set 1 1).set 0 5).get 0 = some 5 := by
  have h := memoCache_update_below_capacity (((MemoCache.mk' ℕ ℕ 3).set 0 0).set 1 1) 0 5
    (by decide) (by decide)
  exact ⟨h.1, h.2.1⟩

end Notified
